import Mathlib

/-!
Verification of the peer address and identity directory: the `PeerStore`
(peer directory composing an address book and a protocol book) and the
`DefaultAddressManager` (self address manager).  The directory is embedded
from `src/peer-store/index.js`; its two subordinate books and the address
manager are modelled from the specification (their implementation files are
not part of the sources, only the directory that composes them and the
address-manager test suite are).
-/

set_option autoImplicit false

namespace Libp2p

/-- A peer identifier: canonical opaque identity with a stable, injective
string encoding (`toB58String`).  Embedded as its string encoding, which the
spec requires to be injective. -/
structure PeerId where
  b58 : String
deriving DecidableEq, Repr

/-- The canonical string encoding of a peer identifier (`toB58String`). -/
def PeerId.toB58String (p : PeerId) : String := p.b58

/-- Rebuild a peer identifier from its string encoding
(`PeerId.createFromCID`; in `PeerStore#peers` the map keys are the string
encodings). -/
def PeerId.createFromCID (s : String) : PeerId := ⟨s⟩

/-- A component of a structured network address.  `p2p` components carry a
peer identifier (the trailing identity suffix); all other protocol
components are collapsed to an opaque name/value pair. -/
inductive MComp where
  | comp (name : String) (value : String)
  | p2p (id : PeerId)
deriving DecidableEq, Repr

/-- An Address Value (multiaddr): canonical structured network address,
compared by semantic equality of its component list. -/
structure Multiaddr where
  comps : List MComp
deriving DecidableEq, Repr

/-- Encapsulate a trailing `/p2p/<id>` identity component. -/
def Multiaddr.encapsulateP2p (ma : Multiaddr) (p : PeerId) : Multiaddr :=
  ⟨ma.comps ++ [MComp.p2p p]⟩

/-- An argument that may or may not be a well-formed peer identifier
(`PeerId.isPeerId` distinguishes the two at runtime in the source). -/
inductive PeerIdArg where
  | valid (p : PeerId)
  | malformed (raw : String)
deriving DecidableEq, Repr

/-- The well-formedness check `PeerId.isPeerId` used by `PeerStore#get`. -/
def PeerId.isPeerId : PeerIdArg → Bool
  | .valid _ => true
  | .malformed _ => false

/-- The error kinds surfaced by the directory; `invalidParameters` embeds
`ERR_INVALID_PARAMETERS` from `src/errors`. -/
inductive PSError where
  | invalidParameters
deriving DecidableEq, Repr

/-- A composed peer record: `{ id, addresses, protocols }` as built by
`PeerStore#get` and `PeerStore#peers`. -/
structure Peer where
  id : PeerId
  addresses : List Multiaddr
  protocols : List String
deriving DecidableEq, Repr

/-- Modelled from the spec: the Peer Address Book (§4.3) keeps a map from
peer-identifier string encoding to the set of known Address Values.  The
implementation file `src/peer-store/address-book.js` is not in the sources;
the map is embedded as an association list keyed by the string encoding. -/
structure AddressBook where
  data : List (String × List Multiaddr)
deriving DecidableEq, Repr

/-- Modelled from the spec: Address Book `get(id)` returns the stored
addresses for `id`, or an absent result when there is no entry. -/
def AddressBook.get (b : AddressBook) (p : PeerId) : Option (List Multiaddr) :=
  (b.data.find? (fun e => e.1 == p.toB58String)).map Prod.snd

/-- Modelled from the spec: Address Book `delete(id)` removes `id` from the
map and returns true iff an entry existed and was removed. -/
def AddressBook.delete (b : AddressBook) (p : PeerId) : Bool × AddressBook :=
  (b.data.any (fun e => e.1 == p.toB58String),
   ⟨b.data.filter (fun e => !(e.1 == p.toB58String))⟩)

/-- Modelled from the spec: the Peer Protocol Book (§4.4) keeps a map from
peer-identifier string encoding to the set of supported protocol strings.
The implementation file `src/peer-store/proto-book.js` is not in the
sources. -/
structure ProtoBook where
  data : List (String × List String)
deriving DecidableEq, Repr

/-- Modelled from the spec: Protocol Book `get(id)`. -/
def ProtoBook.get (b : ProtoBook) (p : PeerId) : Option (List String) :=
  (b.data.find? (fun e => e.1 == p.toB58String)).map Prod.snd

/-- Modelled from the spec: Protocol Book `delete(id)`. -/
def ProtoBook.delete (b : ProtoBook) (p : PeerId) : Bool × ProtoBook :=
  (b.data.any (fun e => e.1 == p.toB58String),
   ⟨b.data.filter (fun e => !(e.1 == p.toB58String))⟩)

/-- The peer directory (`PeerStore` of `src/peer-store/index.js`): an
address book, a protocol book and the auxiliary `peerIds` map. -/
structure PeerStore where
  addressBook : AddressBook
  protoBook : ProtoBook
  peerIds : List (String × PeerId)
deriving DecidableEq, Repr

/-- One step of the second pass of `PeerStore#peers`: a protocol-book entry
is added (with an empty address list) iff its key is not already present. -/
def peersStep (acc : List (String × Peer)) (e : String × List String) :
    List (String × Peer) :=
  if acc.any (fun q => q.1 == e.1) then acc
  else acc ++ [(e.1, { id := PeerId.createFromCID e.1, addresses := [],
                       protocols := e.2 })]

/-- The directory enumeration `PeerStore#peers` (the spec's `all()`): first
every address-book entry becomes a record with protocols defaulted from the
protocol book, then every protocol-book entry not already present is added
with an empty address list. -/
def PeerStore.peers (ps : PeerStore) : List (String × Peer) :=
  let pass1 := ps.addressBook.data.map (fun e =>
    (e.1, { id := PeerId.createFromCID e.1
            addresses := e.2
            protocols := (ps.protoBook.get (PeerId.createFromCID e.1)).getD []
            : Peer }))
  ps.protoBook.data.foldl peersStep pass1

/-- Directory deletion `PeerStore#delete`: delete from both books and
return the disjunction of the two results. -/
def PeerStore.delete (ps : PeerStore) (p : PeerId) : Bool × PeerStore :=
  let ad := ps.addressBook.delete p
  let pd := ps.protoBook.delete p
  (ad.1 || pd.1, { ps with addressBook := ad.2, protoBook := pd.2 })

/-- Directory lookup `PeerStore#get`: reject malformed identifiers, answer
`none` when
neither book has an entry, otherwise compose the record with the missing
side defaulted to the empty list.  The returned state component records
that the call leaves the directory unchanged (the method only reads). -/
def PeerStore.get (ps : PeerStore) (arg : PeerIdArg) :
    Except PSError (Option Peer) × PeerStore :=
  match arg with
  | .malformed _ => (.error .invalidParameters, ps)
  | .valid p =>
    let id := (ps.peerIds.find? (fun e => e.1 == p.toB58String)).map Prod.snd
    let addresses := ps.addressBook.get p
    let protocols := ps.protoBook.get p
    match addresses, protocols with
    | none, none => (.ok none, ps)
    | a, pr => (.ok (some { id := id.getD p, addresses := a.getD [],
                            protocols := pr.getD [] }), ps)

/-- Record lookup by string key in an enumeration result. -/
def lookupRecord (l : List (String × Peer)) (s : String) : Option Peer :=
  (l.find? (fun e => e.1 == s)).map Prod.snd

/-- Modelled from the spec: stripping of the trailing self-identity
component (§4.1, `src/address-manager` is not in the sources).  If the
address ends with a `/p2p/<self>` component carrying the local peer
identifier, that single trailing component is removed; otherwise the
address is returned unchanged. -/
def stripPeerId (ma : Multiaddr) (self : PeerId) : Multiaddr :=
  match ma.comps.getLast? with
  | some (MComp.p2p q) => if q = self then ⟨ma.comps.dropLast⟩ else ma
  | _ => ma

/-- Whether the trailing component of an address is the `/p2p/` identity
component of the given peer. -/
def endsWithSelf (self : PeerId) (ma : Multiaddr) : Bool :=
  ma.comps.getLast? == some (MComp.p2p self)

/-- Modelled from the spec: the Self Address Manager state
(`DefaultAddressManager`, §4.1; its implementation is not in the sources,
only its test suite).  The `transportAddrs` field stands for the addresses
reported by the transport collaborator, and `notifications` counts the
`change:addresses` notifications emitted so far. -/
structure AddressManager where
  peerId : PeerId
  announceFilter : List Multiaddr → List Multiaddr
  listen : List Multiaddr
  announce : List Multiaddr
  transportAddrs : List Multiaddr
  observed : List Multiaddr
  confirmed : List Multiaddr
  notifications : Nat

/-- Modelled from the spec: a freshly constructed Self Address Manager with
empty observed/confirmed sets and no notification yet emitted. -/
def mkAddressManager (p : PeerId) (f : List Multiaddr → List Multiaddr)
    (listen announce transportAddrs : List Multiaddr) : AddressManager :=
  { peerId := p, announceFilter := f, listen := listen, announce := announce,
    transportAddrs := transportAddrs, observed := [], confirmed := [],
    notifications := 0 }

/-- Modelled from the spec: `getListenAddrs()` returns the configured
listen set, order-preserving and unfiltered. -/
def AddressManager.getListenAddrs (am : AddressManager) : List Multiaddr :=
  am.listen

/-- Modelled from the spec: `getAnnounceAddrs()` returns the configured
announce set passed through the Address Filter; when announce is empty it
falls back to the listen addresses combined with the transport-reported
addresses, before filtering. -/
def AddressManager.getAnnounceAddrs (am : AddressManager) : List Multiaddr :=
  match am.announce with
  | [] => am.announceFilter (am.listen ++ am.transportAddrs)
  | _ => am.announceFilter am.announce

/-- Modelled from the spec: `getObservedAddrs()` returns the current
observed set. -/
def AddressManager.getObservedAddrs (am : AddressManager) : List Multiaddr :=
  am.observed

/-- Modelled from the spec: `addObservedAddr(addr)` strips the trailing
self-identity component, then inserts into the observed set iff no equal
Address Value is already present; no notification is emitted. -/
def AddressManager.addObservedAddr (am : AddressManager) (addr : Multiaddr) :
    AddressManager :=
  let a := stripPeerId addr am.peerId
  if a ∈ am.observed then am
  else { am with observed := am.observed ++ [a] }

/-- Modelled from the spec: `confirmObservedAddr(addr)` performs the same
stripping and deduplication but writes into the confirmed set, emitting one
`change:addresses` notification exactly when the stripped value is newly
confirmed. -/
def AddressManager.confirmObservedAddr (am : AddressManager)
    (addr : Multiaddr) : AddressManager :=
  let a := stripPeerId addr am.peerId
  if a ∈ am.confirmed then am
  else { am with confirmed := am.confirmed ++ [a],
                 notifications := am.notifications + 1 }

/-- Sample peer identifier for the concrete instances below. -/
def pSelf : PeerId := ⟨"QmSelf"⟩

/-- Sample plain address (no identity suffix). -/
def maObs : Multiaddr := ⟨[MComp.comp "ip4" "123.123.123.123", MComp.comp "tcp" "39201"]⟩

/-- Sample listen address A. -/
def maA : Multiaddr := ⟨[MComp.comp "ip4" "127.0.0.1", MComp.comp "tcp" "15006"]⟩

/-- Sample listen address B. -/
def maB : Multiaddr := ⟨[MComp.comp "ip4" "127.0.0.1", MComp.comp "tcp" "15008"]⟩

/-- Sample announce address C. -/
def maC : Multiaddr := ⟨[MComp.comp "dns4" "peer.io"]⟩

/-- A fresh Self Address Manager with the identity filter and no
configured addresses. -/
def amFresh : AddressManager := mkAddressManager pSelf (fun l => l) [] [] []

/-- Sample directory state: identifier X known to the address book only,
identifier Y known to the protocol book only. -/
def psSample : PeerStore :=
  { addressBook := ⟨[("X", [maA])]⟩
    protoBook := ⟨[("Y", ["/echo/1.0.0"])]⟩
    peerIds := [] }

/-- C4: for every input that is not a well-formed Peer Identifier, the
directory lookup fails with an InvalidArgument error raised synchronously
and the directory state is unchanged by the failed call. -/
theorem get_invalid_argument (ps : PeerStore) (arg : PeerIdArg)
    (h : PeerId.isPeerId arg = false) :
    ps.get arg = (Except.error PSError.invalidParameters, ps) := by
  cases arg with
  | valid p => simp [PeerId.isPeerId] at h
  | malformed raw => rfl

/-- Witness for C4 at a concrete malformed input. -/
theorem get_invalid_argument_witness :
    PeerId.isPeerId (PeerIdArg.malformed "not-a-peer-id") = false ∧
    psSample.get (PeerIdArg.malformed "not-a-peer-id") =
      (Except.error PSError.invalidParameters, psSample) :=
  ⟨rfl, get_invalid_argument psSample (PeerIdArg.malformed "not-a-peer-id") rfl⟩

/-- C2: directory delete removes the identifier from both books, returns
true iff at least one book had an entry before the call, and a subsequent
lookup of the identifier answers the absent result. -/
theorem delete_or_books (ps : PeerStore) (p : PeerId) :
    ((ps.delete p).1 = true ↔
      (ps.addressBook.get p ≠ none ∨ ps.protoBook.get p ≠ none)) ∧
    (ps.delete p).2.addressBook.get p = none ∧
    (ps.delete p).2.protoBook.get p = none ∧
    ((ps.delete p).2.get (PeerIdArg.valid p)).1 = Except.ok none := by
  have hab : (ps.delete p).2.addressBook.get p = none := by
    simp [PeerStore.delete, AddressBook.delete, AddressBook.get,
          List.find?_eq_none, List.mem_filter]
  have hpb : (ps.delete p).2.protoBook.get p = none := by
    simp [PeerStore.delete, ProtoBook.delete, ProtoBook.get,
          List.find?_eq_none, List.mem_filter]
  refine ⟨?_, hab, hpb, ?_⟩
  · simp only [PeerStore.delete, AddressBook.delete, ProtoBook.delete,
      AddressBook.get, ProtoBook.get, Bool.or_eq_true, List.any_eq_true,
      Ne, Option.map_eq_none', List.find?_eq_none]
    push_neg
    simp
  · simp [PeerStore.get, hab, hpb]

/-- Witness for C2: deleting the identifier known only to the protocol
book reports a removal, and the subsequent lookup answers the absent
result. -/
theorem delete_or_books_witness :
    (psSample.delete ⟨"Y"⟩).1 = true ∧
    ((psSample.delete ⟨"Y"⟩).2.get (PeerIdArg.valid ⟨"Y"⟩)).1 =
      Except.ok none := by
  have h := delete_or_books psSample ⟨"Y"⟩
  exact ⟨h.1.mpr (Or.inr (by decide)), h.2.2.2⟩

/-- C10: directory delete is idempotent: immediately after a delete, a
second delete of the same identifier returns false and leaves both books
(and the whole directory state) unchanged. -/
theorem delete_idempotent (ps : PeerStore) (p : PeerId) :
    ((ps.delete p).2.delete p).1 = false ∧
    ((ps.delete p).2.delete p).2 = (ps.delete p).2 := by
  constructor
  · simp [PeerStore.delete, AddressBook.delete, ProtoBook.delete,
          List.any_eq_true, List.mem_filter]
  · simp [PeerStore.delete, AddressBook.delete, ProtoBook.delete,
          List.filter_filter]

/-- Witness for C10 at a concrete identifier. -/
theorem delete_idempotent_witness :
    ((psSample.delete ⟨"X"⟩).2.delete ⟨"X"⟩).1 = false :=
  (delete_idempotent psSample ⟨"X"⟩).1

/-- C3: for a well-formed identifier the directory lookup answers the
absent result exactly when neither book has an entry; otherwise it answers
a record carrying whichever of the two lists exists, with the missing side
defaulted to the empty list; the call leaves the state unchanged. -/
theorem get_record_defaults (ps : PeerStore) (p : PeerId) :
    (((ps.get (PeerIdArg.valid p)).1 = Except.ok none) ↔
      (ps.addressBook.get p = none ∧ ps.protoBook.get p = none)) ∧
    (∀ addrs, ps.addressBook.get p = some addrs →
      ∃ r : Peer, (ps.get (PeerIdArg.valid p)).1 = Except.ok (some r) ∧
        r.addresses = addrs ∧ r.protocols = (ps.protoBook.get p).getD []) ∧
    (ps.addressBook.get p = none →
      ∀ protos, ps.protoBook.get p = some protos →
      ∃ r : Peer, (ps.get (PeerIdArg.valid p)).1 = Except.ok (some r) ∧
        r.addresses = [] ∧ r.protocols = protos) ∧
    (ps.get (PeerIdArg.valid p)).2 = ps := by
  refine ⟨?_, ?_, ?_, ?_⟩
  · cases hao : ps.addressBook.get p <;> cases hpo : ps.protoBook.get p <;>
      simp [PeerStore.get, hao, hpo]
  · intro addrs hao
    cases hpo : ps.protoBook.get p with
    | none =>
      refine ⟨{ id := ((ps.peerIds.find? (fun e => e.1 == p.toB58String)).map
            Prod.snd).getD p, addresses := addrs, protocols := [] },
          ?_, rfl, rfl⟩
      simp [PeerStore.get, hao, hpo]
    | some protos =>
      refine ⟨{ id := ((ps.peerIds.find? (fun e => e.1 == p.toB58String)).map
            Prod.snd).getD p, addresses := addrs, protocols := protos },
          ?_, rfl, rfl⟩
      simp [PeerStore.get, hao, hpo]
  · intro hao protos hpo
    refine ⟨{ id := ((ps.peerIds.find? (fun e => e.1 == p.toB58String)).map
          Prod.snd).getD p, addresses := [], protocols := protos },
        ?_, rfl, rfl⟩
    simp [PeerStore.get, hao, hpo]
  · cases hao : ps.addressBook.get p <;> cases hpo : ps.protoBook.get p <;>
      simp [PeerStore.get, hao, hpo]

/-- A list has a matching element exactly when the first match exists. -/
theorem any_iff_isSome_find? {α : Type} (l : List α) (p : α → Bool) :
    l.any p = (l.find? p).isSome := by
  induction l with
  | nil => rfl
  | cons x xs ih => by_cases h : p x <;> simp [h, ih]

/-- Existence of a match is preserved through a map. -/
theorem any_map_general {α β : Type} (l : List α) (f : α → β) (p : β → Bool) :
    (l.map f).any p = l.any (fun x => p (f x)) := by
  induction l with
  | nil => rfl
  | cons x xs ih => simp [ih]

/-- Resolving a key after the second pass of the enumeration: the fold
either finds the key among the already-built records or takes the first
matching protocol-book entry, turned into a record with no addresses. -/
theorem foldl_peersStep_find? (pb : List (String × List String)) (s : String) :
    ∀ acc : List (String × Peer),
      (pb.foldl peersStep acc).find? (fun e => e.1 == s) =
        ((acc.find? (fun e => e.1 == s)).or
          ((pb.find? (fun e => e.1 == s)).map
            (fun e => (e.1, { id := PeerId.createFromCID e.1, addresses := [],
                              protocols := e.2 : Peer })))) := by
  induction pb with
  | nil => intro acc; simp
  | cons e rest ih =>
    intro acc
    rw [List.foldl_cons, ih]
    cases hp : acc.any (fun q => q.1 == e.1) with
    | true =>
      have hstep : peersStep acc e = acc := by simp [peersStep, hp]
      rw [hstep]
      by_cases hk : e.1 = s
      · subst hk
        rw [any_iff_isSome_find?] at hp
        obtain ⟨r, hr⟩ := Option.isSome_iff_exists.mp hp
        rw [hr]
        simp
      · have hrec : (e :: rest).find? (fun q => q.1 == s) =
            rest.find? (fun q => q.1 == s) :=
          List.find?_cons_of_neg _ (by simp [hk])
        rw [hrec]
    | false =>
      have hstep : peersStep acc e =
          acc ++ [(e.1, Peer.mk (PeerId.createFromCID e.1) [] e.2)] := by
        simp [peersStep, hp]
      rw [hstep, List.find?_append]
      by_cases hk : e.1 = s
      · subst hk
        have hnone : acc.find? (fun q => q.1 == e.1) = none := by
          rw [List.find?_eq_none]
          intro x hx
          exact (List.any_eq_false.mp hp) x hx
        rw [hnone]
        have h2 : (e :: rest).find? (fun q => q.1 == e.1) = some e :=
          List.find?_cons_of_pos _ (by simp)
        rw [h2]
        simp
      · have h1 : ([(e.1, Peer.mk (PeerId.createFromCID e.1) [] e.2)] :
              List (String × Peer)).find? (fun q => q.1 == s) = none := by
          simp [hk]
        rw [h1, Option.or_none]
        have h2 : (e :: rest).find? (fun q => q.1 == s) =
            rest.find? (fun q => q.1 == s) :=
          List.find?_cons_of_neg _ (by simp [hk])
        rw [h2]

/-- Keys after the second pass of the enumeration: the already-built keys
followed by the protocol-book keys not yet represented, in order. -/
theorem foldl_peersStep_keys (pb : List (String × List String)) :
    ∀ acc : List (String × Peer), (pb.map Prod.fst).Nodup →
      (pb.foldl peersStep acc).map Prod.fst =
        acc.map Prod.fst ++
          (pb.map Prod.fst).filter
            (fun k => !(acc.any (fun q => q.1 == k))) := by
  induction pb with
  | nil => intro acc _; simp
  | cons e rest ih =>
    intro acc hnd
    rw [List.map_cons] at hnd
    have hni : e.1 ∉ rest.map Prod.fst := (List.nodup_cons.mp hnd).1
    have hnd2 : (rest.map Prod.fst).Nodup := (List.nodup_cons.mp hnd).2
    rw [List.foldl_cons, ih _ hnd2]
    cases hp : acc.any (fun q => q.1 == e.1) with
    | true =>
      have hstep : peersStep acc e = acc := by simp [peersStep, hp]
      rw [hstep, List.map_cons, List.filter_cons]
      simp [hp]
    | false =>
      have hstep : peersStep acc e =
          acc ++ [(e.1, Peer.mk (PeerId.createFromCID e.1) [] e.2)] := by
        simp [peersStep, hp]
      rw [hstep, List.map_append]
      have hfc : (rest.map Prod.fst).filter
          (fun k => !((acc ++
              [(e.1, Peer.mk (PeerId.createFromCID e.1) [] e.2)]).any
            (fun q => q.1 == k))) =
          (rest.map Prod.fst).filter
            (fun k => !(acc.any (fun q => q.1 == k))) := by
        apply List.filter_congr
        intro k hk
        have hne : ¬(e.1 = k) := fun h => hni (h ▸ hk)
        simp [hne]
      rw [hfc]
      simp [hp, List.filter_cons]

/-- C1: the directory enumeration is the two-pass merge: every key
resolves to the record whose addresses come from the address book when
present (protocols defaulted from the protocol book, else empty) and
otherwise from the protocol book with an empty address list — so the keys
are exactly the identifiers present in at least one book — and the key
sequence is the address-book keys followed, in order, by the protocol-book
keys not already represented. -/
theorem peers_two_pass_merge (ps : PeerStore)
    (hab : (ps.addressBook.data.map Prod.fst).Nodup)
    (hpb : (ps.protoBook.data.map Prod.fst).Nodup) :
    (∀ s : String,
      lookupRecord ps.peers s =
        match ps.addressBook.get (PeerId.createFromCID s),
              ps.protoBook.get (PeerId.createFromCID s) with
        | some addrs, op =>
            some (Peer.mk (PeerId.createFromCID s) addrs (op.getD []))
        | none, some protos =>
            some (Peer.mk (PeerId.createFromCID s) [] protos)
        | none, none => none) ∧
    ps.peers.map Prod.fst =
      ps.addressBook.data.map Prod.fst ++
        (ps.protoBook.data.map Prod.fst).filter
          (fun s => !(ps.addressBook.data.any (fun e => e.1 == s))) := by
  have hpe : ps.peers =
      ps.protoBook.data.foldl peersStep
        (ps.addressBook.data.map (fun e =>
          (e.1, Peer.mk (PeerId.createFromCID e.1) e.2
            ((ps.protoBook.get (PeerId.createFromCID e.1)).getD [])))) := rfl
  constructor
  · intro s
    rw [lookupRecord, hpe, foldl_peersStep_find?, List.find?_map]
    have hcomp : ((fun q : String × Peer => q.1 == s) ∘
        (fun e : String × List Multiaddr =>
          (e.1, Peer.mk (PeerId.createFromCID e.1) e.2
            ((ps.protoBook.get (PeerId.createFromCID e.1)).getD [])))) =
        (fun e : String × List Multiaddr => e.1 == s) := rfl
    rw [hcomp]
    cases habf : ps.addressBook.data.find? (fun e => e.1 == s) with
    | some a =>
      have ha1 : a.1 = s := by
        have := List.find?_some habf
        simpa using this
      have hget : ps.addressBook.get (PeerId.createFromCID s) = some a.2 := by
        simp [AddressBook.get, PeerId.createFromCID, PeerId.toB58String, habf]
      rw [hget]
      simp [ha1]
    | none =>
      have hget : ps.addressBook.get (PeerId.createFromCID s) = none := by
        simp [AddressBook.get, PeerId.createFromCID, PeerId.toB58String, habf]
      rw [hget]
      cases hpbf : ps.protoBook.data.find? (fun e => e.1 == s) with
      | some b =>
        have hb1 : b.1 = s := by
          have := List.find?_some hpbf
          simpa using this
        have hgetp : ps.protoBook.get (PeerId.createFromCID s) = some b.2 := by
          simp [ProtoBook.get, PeerId.createFromCID, PeerId.toB58String, hpbf]
        rw [hgetp]
        simp [hb1]
      | none =>
        have hgetp : ps.protoBook.get (PeerId.createFromCID s) = none := by
          simp [ProtoBook.get, PeerId.createFromCID, PeerId.toB58String, hpbf]
        rw [hgetp]
        simp
  · rw [hpe, foldl_peersStep_keys _ _ hpb, List.map_map]
    have h1 : (Prod.fst ∘ (fun e : String × List Multiaddr =>
        (e.1, Peer.mk (PeerId.createFromCID e.1) e.2
          ((ps.protoBook.get (PeerId.createFromCID e.1)).getD [])))) =
        (Prod.fst : String × List Multiaddr → String) := rfl
    rw [h1]
    have h2 : (fun k => !((ps.addressBook.data.map (fun e =>
        (e.1, Peer.mk (PeerId.createFromCID e.1) e.2
          ((ps.protoBook.get (PeerId.createFromCID e.1)).getD [])))).any
        (fun q => q.1 == k))) =
        (fun k => !(ps.addressBook.data.any (fun e => e.1 == k))) := by
      funext k
      rw [any_map_general]
    rw [h2]

/-- Witness for C1 on the sample directory: Y is only in the protocol
book, X only in the address book, and both are enumerated. -/
theorem peers_two_pass_merge_witness :
    lookupRecord psSample.peers "Y" =
      some (Peer.mk ⟨"Y"⟩ [] ["/echo/1.0.0"]) ∧
    lookupRecord psSample.peers "X" =
      some (Peer.mk ⟨"X"⟩ [maA] []) ∧
    psSample.peers.map Prod.fst = ["X", "Y"] := by
  have h := peers_two_pass_merge psSample (by decide) (by decide)
  refine ⟨?_, ?_, ?_⟩
  · rw [h.1 "Y"]
    rfl
  · rw [h.1 "X"]
    rfl
  · rw [h.2]
    rfl

/-- Witness for C3: in the sample directory, identifier Y is known to the
protocol book only, and the lookup answers a non-absent record. -/
theorem get_record_defaults_witness :
    psSample.addressBook.get ⟨"Y"⟩ = none ∧
    psSample.protoBook.get ⟨"Y"⟩ = some ["/echo/1.0.0"] ∧
    (psSample.get (PeerIdArg.valid ⟨"Y"⟩)).1 ≠ Except.ok none := by
  refine ⟨rfl, rfl, ?_⟩
  obtain ⟨r, hr, -, -⟩ :=
    (get_record_defaults psSample ⟨"Y"⟩).2.2.1 rfl ["/echo/1.0.0"] rfl
  rw [hr]
  simp

/-- Stripping undoes the encapsulation of the self identity suffix. -/
theorem stripPeerId_encapsulateP2p (ma : Multiaddr) (p : PeerId) :
    stripPeerId (ma.encapsulateP2p p) p = ma := by
  simp [stripPeerId, Multiaddr.encapsulateP2p, List.getLast?_concat,
        List.dropLast_concat]

/-- C5 (amended): for every address whose trailing component is not the
manager's own identity (stripping leaves it unchanged), confirming it
three times and then once more with the self-identity suffix appended
fires exactly one notification in total. -/
theorem confirm_batch_single_notification (p : PeerId)
    (f : List Multiaddr → List Multiaddr)
    (listen announce transport : List Multiaddr) (a : Multiaddr)
    (h : stripPeerId a p = a) :
    (((((mkAddressManager p f listen announce
        transport).confirmObservedAddr a).confirmObservedAddr
        a).confirmObservedAddr a).confirmObservedAddr
        (a.encapsulateP2p p)).notifications = 1 := by
  simp [AddressManager.confirmObservedAddr, mkAddressManager, h,
        stripPeerId_encapsulateP2p]

/-- Witness for C5 at the concrete observed address of the test suite. -/
theorem confirm_batch_single_notification_witness :
    stripPeerId maObs pSelf = maObs ∧
    ((((amFresh.confirmObservedAddr maObs).confirmObservedAddr
        maObs).confirmObservedAddr maObs).confirmObservedAddr
        (maObs.encapsulateP2p pSelf)).notifications = 1 :=
  ⟨rfl, confirm_batch_single_notification pSelf (fun l => l) [] [] [] maObs rfl⟩

/-- C5 counterexample: when the address already carries the self-identity
suffix, the same call sequence fires two notifications, not one. -/
theorem confirm_batch_counterexample :
    (((((mkAddressManager pSelf (fun l => l) [] [] []).confirmObservedAddr
        (maObs.encapsulateP2p pSelf)).confirmObservedAddr
        (maObs.encapsulateP2p pSelf)).confirmObservedAddr
        (maObs.encapsulateP2p pSelf)).confirmObservedAddr
        ((maObs.encapsulateP2p pSelf).encapsulateP2p
          pSelf)).notifications = 2 ∧
    (((((mkAddressManager pSelf (fun l => l) [] [] []).confirmObservedAddr
        (maObs.encapsulateP2p pSelf)).confirmObservedAddr
        (maObs.encapsulateP2p pSelf)).confirmObservedAddr
        (maObs.encapsulateP2p pSelf)).confirmObservedAddr
        ((maObs.encapsulateP2p pSelf).encapsulateP2p
          pSelf)).notifications ≠ 1 := by
  refine ⟨rfl, ?_⟩
  decide

/-- C6 (amended): the observed and confirmed sets only grow (no operation
removes an element), and they never gain an element whose trailing
component is the local peer identifier as long as no added address carries
the self-identity suffix twice in a row (one trailing suffix is stripped
before storage). -/
theorem observed_confirmed_invariant (am : AddressManager) (addr : Multiaddr) :
    (am.addObservedAddr addr).confirmed = am.confirmed ∧
    (am.confirmObservedAddr addr).observed = am.observed ∧
    am.observed.Sublist (am.addObservedAddr addr).observed ∧
    am.confirmed.Sublist (am.confirmObservedAddr addr).confirmed ∧
    ((∀ x ∈ am.observed, endsWithSelf am.peerId x = false) →
      endsWithSelf am.peerId (stripPeerId addr am.peerId) = false →
      ∀ x ∈ (am.addObservedAddr addr).observed,
        endsWithSelf am.peerId x = false) ∧
    ((∀ x ∈ am.confirmed, endsWithSelf am.peerId x = false) →
      endsWithSelf am.peerId (stripPeerId addr am.peerId) = false →
      ∀ x ∈ (am.confirmObservedAddr addr).confirmed,
        endsWithSelf am.peerId x = false) := by
  refine ⟨?_, ?_, ?_, ?_, ?_, ?_⟩
  · by_cases ho : stripPeerId addr am.peerId ∈ am.observed <;>
      simp [AddressManager.addObservedAddr, ho]
  · by_cases hc : stripPeerId addr am.peerId ∈ am.confirmed <;>
      simp [AddressManager.confirmObservedAddr, hc]
  · by_cases ho : stripPeerId addr am.peerId ∈ am.observed
    · simp [AddressManager.addObservedAddr, ho]
    · simp only [AddressManager.addObservedAddr, ho, if_neg, if_false]
      exact List.sublist_append_left _ _
  · by_cases hc : stripPeerId addr am.peerId ∈ am.confirmed
    · simp [AddressManager.confirmObservedAddr, hc]
    · simp only [AddressManager.confirmObservedAddr, hc, if_neg, if_false]
      exact List.sublist_append_left _ _
  · intro hall hstrip x hx
    by_cases ho : stripPeerId addr am.peerId ∈ am.observed
    · simp [AddressManager.addObservedAddr, ho] at hx
      exact hall x hx
    · simp [AddressManager.addObservedAddr, ho] at hx
      rcases hx with hx | hx
      · exact hall x hx
      · rw [hx]
        exact hstrip
  · intro hall hstrip x hx
    by_cases hc : stripPeerId addr am.peerId ∈ am.confirmed
    · simp [AddressManager.confirmObservedAddr, hc] at hx
      exact hall x hx
    · simp [AddressManager.confirmObservedAddr, hc] at hx
      rcases hx with hx | hx
      · exact hall x hx
      · rw [hx]
        exact hstrip

/-- Witness for C6: after observing a plain address on a fresh manager, no
stored observed address ends with the local identity component. -/
theorem observed_confirmed_invariant_witness :
    ((amFresh.addObservedAddr maObs).observed.all
      (fun x => !(endsWithSelf amFresh.peerId x))) = true := by
  have h := (observed_confirmed_invariant amFresh maObs).2.2.2.2.1
    (by simp [amFresh, mkAddressManager]) (by decide)
  rw [List.all_eq_true]
  intro x hx
  simp [h x hx]

/-- C6 counterexample: an address carrying the self-identity suffix twice
is stripped only once, so the observed set gains an element whose trailing
component is the local peer identifier. -/
theorem observed_invariant_counterexample :
    ((amFresh.addObservedAddr
        ((maObs.encapsulateP2p pSelf).encapsulateP2p pSelf)).observed.any
      (endsWithSelf pSelf)) = true := by
  decide

/-- C7 (amended): adding the same address three times to a fresh manager
leaves a single observed entry, the stripped form of the address (the
address itself whenever it does not carry the self-identity suffix), and
the addition is idempotent on any manager state. -/
theorem addObservedAddr_dedupe (p : PeerId)
    (f : List Multiaddr → List Multiaddr)
    (listen announce transport : List Multiaddr) (a : Multiaddr) :
    ((((mkAddressManager p f listen announce transport).addObservedAddr
        a).addObservedAddr a).addObservedAddr a).getObservedAddrs =
      [stripPeerId a p] ∧
    ∀ am : AddressManager,
      (am.addObservedAddr a).addObservedAddr a = am.addObservedAddr a := by
  constructor
  · simp [AddressManager.addObservedAddr, AddressManager.getObservedAddrs,
          mkAddressManager]
  · intro am
    by_cases h : stripPeerId a am.peerId ∈ am.observed
    · have h1 : am.addObservedAddr a = am := by
        simp [AddressManager.addObservedAddr, h]
      rw [h1]
      exact h1
    · have h1 : am.addObservedAddr a =
          { am with observed := am.observed ++ [stripPeerId a am.peerId] } := by
        simp [AddressManager.addObservedAddr, h]
      rw [h1]
      have h2 : stripPeerId a
          ({ am with observed := am.observed ++ [stripPeerId a am.peerId]
             : AddressManager }).peerId ∈
          ({ am with observed := am.observed ++ [stripPeerId a am.peerId]
             : AddressManager }).observed := by
        simp
      simp [AddressManager.addObservedAddr, h2]

/-- Witness for C7 at the concrete observed address of the test suite. -/
theorem addObservedAddr_dedupe_witness :
    (((amFresh.addObservedAddr maObs).addObservedAddr
        maObs).addObservedAddr maObs).getObservedAddrs = [maObs] :=
  (addObservedAddr_dedupe pSelf (fun l => l) [] [] [] maObs).1

/-- C7 counterexample: with an address that carries the self-identity
suffix, the single observed entry is the stripped form, so it is not the
added address itself. -/
theorem addObservedAddr_contains_counterexample :
    (((amFresh.addObservedAddr
        (maObs.encapsulateP2p pSelf)).addObservedAddr
        (maObs.encapsulateP2p pSelf)).addObservedAddr
        (maObs.encapsulateP2p pSelf)).getObservedAddrs.length = 1 ∧
    (maObs.encapsulateP2p pSelf) ∉
      (((amFresh.addObservedAddr
        (maObs.encapsulateP2p pSelf)).addObservedAddr
        (maObs.encapsulateP2p pSelf)).addObservedAddr
        (maObs.encapsulateP2p pSelf)).getObservedAddrs := by
  refine ⟨rfl, ?_⟩
  decide

/-- C8: with a non-empty configured announce list, the announced addresses
are the configured announce sequence passed through the filter — a
sublist, hence order-preserving, when the filter only removes elements —
independent of the listen configuration. -/
theorem getAnnounceAddrs_announce (p : PeerId)
    (f : List Multiaddr → List Multiaddr)
    (listen listen2 announce transport : List Multiaddr)
    (hne : announce ≠ [])
    (hf : ∀ l, (f l).Sublist l) :
    (mkAddressManager p f listen announce transport).getAnnounceAddrs =
      f announce ∧
    ((mkAddressManager p f listen announce
        transport).getAnnounceAddrs).Sublist announce ∧
    (mkAddressManager p f listen2 announce transport).getAnnounceAddrs =
      (mkAddressManager p f listen announce transport).getAnnounceAddrs := by
  cases announce with
  | nil => exact absurd rfl hne
  | cons c cs => exact ⟨rfl, hf (c :: cs), rfl⟩

/-- Witness for C8 with listen = [A, B] and announce = [C] and the
identity filter. -/
theorem getAnnounceAddrs_announce_witness :
    ([maC] : List Multiaddr) ≠ [] ∧
    (mkAddressManager pSelf (fun l => l) [maA, maB] [maC]
        []).getAnnounceAddrs = [maC] := by
  refine ⟨by simp, ?_⟩
  exact (getAnnounceAddrs_announce pSelf (fun l => l) [maA, maB] [] [maC] []
    (by simp) (fun l => List.Sublist.refl l)).1

/-- C9: the listen addresses returned are exactly the configured listen
sequence, in order (so the empty sequence when nothing is configured), and
with no configuration at all the announced addresses are also empty. -/
theorem getListenAddrs_exact (p : PeerId)
    (f : List Multiaddr → List Multiaddr)
    (listen announce transport : List Multiaddr) :
    (mkAddressManager p f listen announce transport).getListenAddrs =
      listen ∧
    ((∀ l, (f l).Sublist l) →
      (mkAddressManager p f [] [] []).getAnnounceAddrs = []) := by
  refine ⟨rfl, ?_⟩
  intro hf
  have h : (mkAddressManager p f [] [] []).getAnnounceAddrs = f [] := rfl
  rw [h]
  exact List.sublist_nil.mp (hf [])

/-- Witness for C9 with listen = [A, B] and the unconfigured manager. -/
theorem getListenAddrs_exact_witness :
    (mkAddressManager pSelf (fun l => l) [maA, maB] [maC]
        []).getListenAddrs = [maA, maB] ∧
    amFresh.getAnnounceAddrs = [] := by
  refine ⟨(getListenAddrs_exact pSelf (fun l => l) [maA, maB] [maC] []).1, ?_⟩
  exact (getListenAddrs_exact pSelf (fun l => l) [] [] []).2
    (fun l => List.Sublist.refl l)

end Libp2p
